import Mathlib

/-!
Verification development for the WHATSAPP-MCP-CLIENT repository.

The embedding below models, from the source:
  * `src/json_history.py` — the persisted conversation store
    (`_load_all`, `_save_all`, `load`, `append`, `clear`);
  * `src/client_v4.py` — `MCPClient.connect`, `MCPClient.invoke`
    (including its `ENABLE_AGENT_DEBUG` branch),
    `MCPClient._extract_text`, `MCPClient.close`;
  * `src/agent/agent_data_extraction.py` — `extract_agent_data`.

Python exceptions are modelled with `Except`; Python `dict`s keyed by
strings are modelled as insertion-ordered association lists, which is
what CPython dicts guarantee. A value stored under a thread_id key in
the persisted table may be any parsable JSON value, not only a list,
so the table's value type distinguishes proper lists of turns from
non-list values.
-/

namespace JsonHistory

/-- One persisted conversation turn: the dicts
`{"role": ..., "content": ..., "timestamp": ...}` written by
`client_v4.MCPClient.invoke` and stored by `json_history`. -/
structure Turn where
  role : String
  content : String
  timestamp : String
deriving DecidableEq, Repr

/-- A value stored under a thread_id key of the persisted table:
either a JSON list of turns, or any other parsable JSON value (a
number, string, nested object, ...), which slicing and `.extend`
mishandle. -/
inductive RecordVal where
  | list (turns : List Turn)
  | nonList
deriving DecidableEq, Repr

/-- The persisted table mapping `thread_id` to that thread's stored
value, as an insertion-ordered association list (CPython dict
semantics). -/
abbrev Table := List (String × RecordVal)

/-- Python exception classes that the modelled code can raise. -/
inductive PyErr where
  | attributeError
  | typeError
  | indexError
deriving DecidableEq, Repr

/-- Lookup `all_data.get(thread_id, [])` on the table. -/
def getRecord (tbl : Table) (k : String) : RecordVal :=
  match tbl.find? (fun p => p.1 == k) with
  | some p => p.2
  | none => .list []

/-- Membership test `thread_id in all_data` on the table. -/
def containsKey (tbl : Table) (k : String) : Bool :=
  tbl.any (fun p => p.1 == k)

/-- Assignment `all_data[k] = v` on the table: replaces the first entry
with key `k`, or appends a new entry at the end (dict insertion order). -/
def setEntry (tbl : Table) (k : String) (v : RecordVal) : Table :=
  match tbl with
  | [] => [(k, v)]
  | (k', v') :: rest =>
      if k' = k then (k', v) :: rest else (k', v') :: setEntry rest k v

/-- The value a persisted file parses to: the expected JSON object, or
valid JSON that is not an object (a list, string, number, ...). -/
inductive JVal where
  | obj (t : Table)
  | nonObj
deriving DecidableEq, Repr

/-- State of the backing file `chat_history/history.json`. -/
inductive FileState where
  | absent
  | blank
  | unparsable
  | parsed (v : JVal)
deriving DecidableEq, Repr

/-- Result of `_load_all`: either a dict, or the non-dict value that a
well-formed-JSON-but-not-an-object file parses to. -/
inductive LoadAllResult where
  | table (t : Table)
  | nonDict
deriving DecidableEq, Repr

/-- Models `_load_all` from `src/json_history.py`: a missing or
zero-size file, whitespace-only content, and a `json.JSONDecodeError`
all yield the empty dict; otherwise the parsed JSON value is returned
as-is (including when it is not an object). -/
def load_all (fs : FileState) : LoadAllResult :=
  match fs with
  | .absent => .table []
  | .blank => .table []
  | .unparsable => .table []
  | .parsed (.obj t) => .table t
  | .parsed .nonObj => .nonDict

/-- Models `_save_all`: the file now holds the serialized dict. -/
def save_all (t : Table) : FileState :=
  .parsed (.obj t)

/-- Models `data[-last_n:] if last_n else data` from `load`: a `None`
or `0` limit is falsy and returns the data unchanged — even when it
is not a list; a positive limit slices, which keeps the last `last_n`
elements of a list and raises `TypeError` on a non-list value. -/
def sliceLast (data : RecordVal) (last_n : Option Nat) :
    Except PyErr RecordVal :=
  match last_n with
  | none => .ok data
  | some 0 => .ok data
  | some n =>
      match data with
      | .list l => .ok (.list (l.drop (l.length - n)))
      | .nonList => .error .typeError

/-- Models `load` from `src/json_history.py`. When the file parses to
a non-dict JSON value, `all_data.get` raises `AttributeError`; when
the thread's stored value is a non-list and the limit is truthy, the
slice raises `TypeError`. -/
def load (fs : FileState) (thread_id : String) (last_n : Option Nat) :
    Except PyErr RecordVal :=
  match load_all fs with
  | .nonDict => .error .attributeError
  | .table t => sliceLast (getRecord t thread_id) last_n

/-- Models the table mutation performed by `append`:
`if thread_id not in all_data: all_data[thread_id] = []` followed by
`all_data[thread_id].extend(entries)` — the branch on `containsKey`
substitutes the intermediate dict (named `all_data` in the source)
into the extend step. `.extend` raises `AttributeError` when the
stored value is not a list. -/
def appendTable (tbl : Table) (k : String) (entries : List Turn) :
    Except PyErr Table :=
  if containsKey tbl k then
    match getRecord tbl k with
    | .list l => .ok (setEntry tbl k (.list (l ++ entries)))
    | .nonList => .error .attributeError
  else
    match getRecord (tbl ++ [(k, .list [])]) k with
    | .list l =>
        .ok (setEntry (tbl ++ [(k, .list [])]) k (.list (l ++ entries)))
    | .nonList => .error .attributeError

/-- Models `append` from `src/json_history.py`: read-modify-write of
the whole file. Indexing into a non-dict raises `TypeError`. -/
def append (fs : FileState) (thread_id : String) (entries : List Turn) :
    Except PyErr FileState :=
  match load_all fs with
  | .nonDict => .error .typeError
  | .table t =>
      match appendTable t thread_id entries with
      | .error e => .error e
      | .ok t' => .ok (save_all t')

/-- Models the table mutation of `clear`: `all_data[thread_id] = []`
(a plain assignment, total for any previous value). -/
def clearTable (tbl : Table) (k : String) : Table :=
  setEntry tbl k (.list [])

/-- Models `clear` from `src/json_history.py`. -/
def clear (fs : FileState) (thread_id : String) : Except PyErr FileState :=
  match load_all fs with
  | .nonDict => .error .typeError
  | .table t => .ok (save_all (clearTable t thread_id))

end JsonHistory

namespace Extraction

open JsonHistory

/-- One entry of an `AIMessage.tool_calls` list: a dict inspected via
`tool_call.get("name")` and `tool_call.get("args")`; `args` is carried
as an opaque rendering of the arguments payload. -/
structure ToolCallData where
  name : Option String
  args : Option String
deriving DecidableEq, Repr

/-- The `token_usage` dict inside `response_metadata`. -/
structure TokenUsage where
  prompt_tokens : Option Nat
  completion_tokens : Option Nat
  total_tokens : Option Nat
deriving DecidableEq, Repr

/-- The fields of `AIMessage.response_metadata` that the extractor
reads; an empty (falsy) metadata dict is modelled as `none` at the
use site. -/
structure RespMeta where
  token_usage : Option TokenUsage
  model_name : Option String
deriving DecidableEq, Repr

/-- One element of `structured_content["contacts"]`. -/
structure Contact where
  wa_id : Option String
deriving DecidableEq, Repr

/-- One element of `structured_content["messages"]`. -/
structure MessageEntry where
  id : Option String
deriving DecidableEq, Repr

/-- The `structured_content` dict inside a `ToolMessage.artifact`;
each `none` models a missing key. -/
structure StructuredContent where
  messaging_product : Option String
  contacts : Option (List Contact)
  messages : Option (List MessageEntry)
deriving DecidableEq, Repr

/-- A `ToolMessage.artifact` dict; `structured_content := none` models
a missing `structured_content` key (default `{}`). -/
structure Artifact where
  structured_content : Option StructuredContent
deriving DecidableEq, Repr

/-- One message of `response["messages"]` as classified by the loop in
`extract_agent_data`: an `AIMessage` (content, `tool_calls`, metadata
where `none` stands for a falsy/empty `response_metadata`), a
`ToolMessage` (content plus its `artifact`, `none` when it is `None`
or falsy), any other `BaseMessage` subclass (human/system), or a
`(role, content)` tuple. A tuple matches none of the loop's three
tests and passes through untouched, but every variant carries the
`content` that `MCPClient._extract_text` reads. -/
inductive AgentMsg where
  | ai (content : String) (tool_calls : List ToolCallData)
      (response_metadata : Option RespMeta)
  | toolMsg (content : String) (artifact : Option Artifact)
  | otherMsg (content : String)
  | tup (role : String) (content : String)
deriving DecidableEq, Repr

/-- The loop state: `final_ai` (content and metadata of the retained
`AIMessage`), `tool_call`, and `tool_result` (the retained
`ToolMessage`'s artifact). -/
structure ScanState where
  final_ai : Option (String × Option RespMeta)
  tool_call : Option ToolCallData
  tool_result : Option (Option Artifact)
deriving DecidableEq, Repr

/-- One iteration of the `for msg in messages` loop of
`extract_agent_data`: a non-empty-content `AIMessage` overwrites
`final_ai`; a message with a non-empty `tool_calls` attribute
overwrites `tool_call` with its first element; a `ToolMessage`
overwrites `tool_result`; other messages and tuples change nothing. -/
def scanStep (st : ScanState) (m : AgentMsg) : ScanState :=
  match m with
  | .ai c tcs meta =>
      let st1 := if c ≠ "" then { st with final_ai := some (c, meta) } else st
      match tcs with
      | [] => st1
      | tc :: _ => { st1 with tool_call := some tc }
  | .toolMsg _ art => { st with tool_result := some art }
  | .otherMsg _ => st
  | .tup _ _ => st

/-- The whole message loop of `extract_agent_data`. -/
def scanMsgs (msgs : List AgentMsg) : ScanState :=
  msgs.foldl scanStep ⟨none, none, none⟩

/-- A `token_usage` modelling the empty dict `{}`. -/
def emptyTU : TokenUsage := ⟨none, none, none⟩

/-- The extractor's returned dict. The `whatsapp` sub-dict is
flattened; all-`none` fields model the empty `whatsapp_data = {}`. -/
structure AgentData where
  final_message : Option String
  model : Option String
  tool_used : Option String
  tool_arguments : Option String
  wa_messaging_product : Option String
  wa_wa_id : Option String
  wa_message_id : Option String
  tokens_prompt : Option Nat
  tokens_completion : Option Nat
  tokens_total : Option Nat
  success : Bool
deriving DecidableEq, Repr

/-- Models the `whatsapp_data` block: when a tool result with a truthy
artifact was retained, read `structured_content` (default `{}`),
`contacts` and `messages` (default `[{}]`), and index `[0]` into each —
an empty list raises `IndexError`. -/
def whatsappData (tool_result : Option (Option Artifact)) :
    Except PyErr (Option String × Option String × Option String) :=
  match tool_result with
  | some (some art) =>
      let structured := (art.structured_content).getD ⟨none, none, none⟩
      let contactsList := (structured.contacts).getD [⟨none⟩]
      let messagesList := (structured.messages).getD [⟨none⟩]
      match contactsList.head?, messagesList.head? with
      | none, _ => .error .indexError
      | _, none => .error .indexError
      | some c0, some m0 =>
          .ok (structured.messaging_product, c0.wa_id, m0.id)
  | _ => .ok (none, none, none)

/-- Python truthiness of `whatsapp_data.get("message_id")`: `None` and
the empty string are falsy. -/
def truthyId (v : Option String) : Bool :=
  match v with
  | none => false
  | some s => s ≠ ""

/-- Models `extract_agent_data` from
`src/agent/agent_data_extraction.py`. -/
def extract_agent_data (msgs : List AgentMsg) : Except PyErr AgentData :=
  let s := scanMsgs msgs
  let token_usage :=
    match s.final_ai with
    | some (_, some meta) => (meta.token_usage).getD emptyTU
    | _ => emptyTU
  match whatsappData s.tool_result with
  | .error e => .error e
  | .ok (mp, waid, mid) =>
      .ok
        { final_message := (s.final_ai).map (fun p => p.1)
          model :=
            match s.final_ai with
            | some (_, some meta) => meta.model_name
            | some (_, none) => none
            | none => none
          tool_used := (s.tool_call).bind (fun tc => tc.name)
          tool_arguments := (s.tool_call).bind (fun tc => tc.args)
          wa_messaging_product := mp
          wa_wa_id := waid
          wa_message_id := mid
          tokens_prompt := token_usage.prompt_tokens
          tokens_completion := token_usage.completion_tokens
          tokens_total := token_usage.total_tokens
          success := truthyId mid }

/-- The first tool call a message contributes, when it has any:
`msg.tool_calls[0]` guarded by `hasattr`/truthiness. -/
def firstCallOf (m : AgentMsg) : Option ToolCallData :=
  match m with
  | .ai _ (tc :: _) _ => some tc
  | _ => none

/-- The artifact a `ToolMessage` contributes. -/
def resultOf (m : AgentMsg) : Option (Option Artifact) :=
  match m with
  | .toolMsg _ art => some art
  | _ => none

end Extraction

namespace Client

open JsonHistory Extraction

/-- One in-memory history entry kept by `MCPClient.history`
(`{"role": ..., "content": ...}`, no timestamp). -/
structure HistEntry where
  role : String
  content : String
deriving DecidableEq, Repr

/-- The value returned by `agent.ainvoke`, as far as `invoke` inspects
it: a dict containing a `"messages"` key with the message sequence, a
dict without that key, or a non-dict value; the latter two carry their
string rendering `str(result)`, which `_extract_text` falls back to. -/
inductive AgentResult where
  | messagesDict (msgs : List AgentMsg)
  | dictNoMessages (s : String)
  | nonDict (s : String)
deriving DecidableEq, Repr

/-- Models `MCPClient._extract_text`: for a dict with a `"messages"`
key, take `result["messages"][-1]` (IndexError when the list is
empty) and return its `content` when it is a `BaseMessage` or its
second component when it is a tuple; any other result is rendered
with `str`. -/
def extractText (r : AgentResult) : Except PyErr String :=
  match r with
  | .messagesDict msgs =>
      match msgs.getLast? with
      | none => .error .indexError
      | some (.ai c _ _) => .ok c
      | some (.toolMsg c _) => .ok c
      | some (.otherMsg c) => .ok c
      | some (.tup _ c) => .ok c
  | .dictNoMessages s => .ok s
  | .nonDict s => .ok s

/-- Models the `if ENABLE_AGENT_DEBUG:` block inside `invoke`
(client_v4.py lines 165-167): with debug on, `extract_agent_data`
runs on the raw result inside the `try` block and any exception it
raises is caught by the turn's generic handler. `response.get` raises
`AttributeError` on a non-dict result; a dict without `"messages"`
extracts from the empty message list; the summary printing has no
further effect on state. -/
def debugExtract (debug : Bool) (r : AgentResult) : Except PyErr Unit :=
  if debug then
    match r with
    | .messagesDict msgs =>
        match extract_agent_data msgs with
        | .error e => .error e
        | .ok _ => .ok ()
    | .dictNoMessages _ =>
        match extract_agent_data [] with
        | .error e => .error e
        | .ok _ => .ok ()
    | .nonDict _ => .error .attributeError
  else .ok ()

/-- Outcome of the awaited `self.agent.ainvoke(state)` call: a result,
an `asyncio.TimeoutError`, or any other `Exception`. -/
inductive AgentOutcome where
  | success (r : AgentResult)
  | timeout
  | failure
deriving DecidableEq, Repr

/-- The mutable client state that `MCPClient.invoke` touches:
`self.thread_id`, `self.history`, and the persisted store file behind
`utils.json_history`. -/
structure ClientState where
  thread_id : String
  history : List HistEntry
  store : FileState
deriving DecidableEq, Repr

/-- The fixed reply returned on `asyncio.TimeoutError`. -/
def timeoutMsg : String := "⚠️ Request timed out. Please try again."

/-- The fixed reply returned on any other exception
(the source concatenates two string literals). -/
def techMsg : String :=
  "Sorry, I encountered a technical issue. " ++ "Please try again shortly."

/-- Models `MCPClient.invoke`. The `ENABLE_AGENT_DEBUG` flag, the
agent call's outcome and the current UTC timestamp `now` are inputs
from the environment. On success, the debug branch runs first (when
enabled), then the text is extracted and one `append` call stores the
user and assistant turns (both stamped `now`) before the in-memory
history is extended and the text returned; an exception anywhere in
the `try` block (timeout, agent failure, a raising debug extraction,
an empty message list, or a raising `append`) is caught and turned
into a fixed reply with the state untouched. -/
def invoke (debug : Bool) (st : ClientState) (user_input : String)
    (outcome : AgentOutcome) (now : String) : String × ClientState :=
  match outcome with
  | .timeout => (timeoutMsg, st)
  | .failure => (techMsg, st)
  | .success r =>
      match debugExtract debug r with
      | .error _ => (techMsg, st)
      | .ok _ =>
          match extractText r with
          | .error _ => (techMsg, st)
          | .ok message =>
              match JsonHistory.append st.store st.thread_id
                  [⟨"user", user_input, now⟩, ⟨"assistant", message, now⟩] with
              | .error _ => (techMsg, st)
              | .ok store' =>
                  (message,
                   { st with
                      store := store',
                      history := st.history ++
                        [⟨"user", user_input⟩, ⟨"assistant", message⟩] })

/-- Mirror of `tool_mcp.mcp_servers.MCPServerSpec`. -/
structure MCPServerSpec where
  name : String
  transport : String
  path : Option String := none
  args : Option (List String) := none
  url : Option String := none
  headers : Option (List (String × String)) := none
deriving DecidableEq, Repr

/-- What the environment does when `connect` attempts one server:
either the whole attempt succeeds and `ts` tools are discovered, or
some step raises after `opened` resources were already entered into
the exit stack (for stdio, `opened ≤ 2`; for http, `opened = 0`
because `_connect_http` registers nothing in the exit stack). -/
inductive ConnOutcome where
  | toolsOk (ts : List String)
  | connErr (opened : Nat)
deriving DecidableEq, Repr

/-- Errors `connect` can raise. -/
inductive ConnErr where
  | valueError (msg : String)
  | runtimeError (msg : String)
  | connectionError
deriving DecidableEq, Repr

/-- The resource-owning state of an `MCPClient`: the contexts entered
into `self.exit_stack` (in acquisition order), `self.sessions`,
`self.tools`, `self.agent`, and, for specification purposes, the
resources released so far. -/
structure ConnState where
  exitStack : List String
  sessions : List String
  tools : List String
  agent : Option (List String)
  released : List String
deriving DecidableEq, Repr

/-- The exit-stack resource names `_connect_stdio` enters for a spec:
the `stdio_client` transport context, then the `ClientSession`. -/
def stdioResources (spec : MCPServerSpec) : List String :=
  [spec.name ++ ":stdio_client", spec.name ++ ":ClientSession"]

/-- Models the `for spec in self.servers` loop inside
`MCPClient.connect`: dispatch on `spec.transport`, accumulate tools,
raise `ValueError` on any other transport tag. An attempt that fails
leaves behind whatever resources it had already entered. -/
def connectLoop (st : ConnState) (acc : List String) :
    List (MCPServerSpec × ConnOutcome) → Except ConnErr (List String) × ConnState
  | [] => (.ok acc, st)
  | (spec, out) :: rest =>
      if spec.transport = "stdio" then
        match out with
        | .toolsOk ts =>
            connectLoop
              { st with
                  exitStack := st.exitStack ++ stdioResources spec,
                  sessions := st.sessions ++ [spec.name] }
              (acc ++ ts) rest
        | .connErr opened =>
            (.error .connectionError,
             { st with exitStack := st.exitStack ++ (stdioResources spec).take opened })
      else if spec.transport = "http" then
        match out with
        | .toolsOk ts => connectLoop st (acc ++ ts) rest
        | .connErr _ => (.error .connectionError, st)
      else
        (.error (.valueError ("Unsupported transport: " ++ spec.transport)), st)

/-- Models `MCPClient.connect`: run the loop, raise `RuntimeError` when
no tools were discovered, otherwise store the tools and build the
agent; the `except` block re-raises the caught error unchanged. -/
def connect (st : ConnState) (servers : List (MCPServerSpec × ConnOutcome)) :
    Except ConnErr Unit × ConnState :=
  match connectLoop st [] servers with
  | (.error e, st') => (.error e, st')
  | (.ok ts, st') =>
      if ts.isEmpty then (.error (.runtimeError "No MCP tools discovered"), st')
      else (.ok (), { st' with tools := ts, agent := some ts })

/-- Models `MCPClient.close`: `AsyncExitStack.aclose` unwinds every
entered context in reverse acquisition order and leaves the stack
empty. -/
def close (st : ConnState) : ConnState :=
  { st with exitStack := [], released := st.released ++ st.exitStack.reverse }

/-- Exit-stack resources a prefix of the server list leaves behind
when each of its attempts succeeds: two per stdio spec, none per http
spec. -/
def openedBy : List (MCPServerSpec × ConnOutcome) → List String
  | [] => []
  | (spec, _) :: rest =>
      if spec.transport = "stdio" then stdioResources spec ++ openedBy rest
      else openedBy rest

/-- Sessions a fully successful prefix of the server list registers:
one per stdio spec. -/
def sessionsOf : List (MCPServerSpec × ConnOutcome) → List String
  | [] => []
  | (spec, _) :: rest =>
      if spec.transport = "stdio" then spec.name :: sessionsOf rest
      else sessionsOf rest

end Client

namespace JsonHistory

theorem getRecord_cons (p : String × RecordVal) (rest : Table) (u : String) :
    getRecord (p :: rest) u = if p.1 = u then p.2 else getRecord rest u := by
  by_cases h : p.1 = u
  · rw [if_pos h]
    unfold getRecord
    rw [List.find?_cons_of_pos _ (by simpa using h)]
  · rw [if_neg h]
    unfold getRecord
    rw [List.find?_cons_of_neg _ (by simpa using h)]

theorem getRecord_setEntry_self (tbl : Table) (k : String) (v : RecordVal) :
    getRecord (setEntry tbl k v) k = v := by
  induction tbl with
  | nil =>
      show getRecord [(k, v)] k = v
      rw [getRecord_cons, if_pos rfl]
  | cons p rest ih =>
      obtain ⟨k', v'⟩ := p
      show getRecord
        (if k' = k then (k', v) :: rest else (k', v') :: setEntry rest k v) k = v
      by_cases h : k' = k
      · rw [if_pos h, getRecord_cons, if_pos h]
      · rw [if_neg h, getRecord_cons, if_neg h, ih]

theorem getRecord_setEntry_ne (tbl : Table) (k u : String) (v : RecordVal)
    (h : u ≠ k) : getRecord (setEntry tbl k v) u = getRecord tbl u := by
  induction tbl with
  | nil =>
      have h' : ¬ k = u := fun hh => h hh.symm
      show getRecord [(k, v)] u = getRecord [] u
      rw [getRecord_cons, if_neg h']
  | cons p rest ih =>
      obtain ⟨k', v'⟩ := p
      show getRecord
          (if k' = k then (k', v) :: rest else (k', v') :: setEntry rest k v) u =
        getRecord ((k', v') :: rest) u
      by_cases hk : k' = k
      · have hku : ¬ k' = u := by
          rw [hk]
          exact fun hh => h hh.symm
        rw [if_pos hk, getRecord_cons, getRecord_cons, if_neg hku, if_neg hku]
      · rw [if_neg hk, getRecord_cons, getRecord_cons]
        by_cases hku : k' = u
        · rw [if_pos hku, if_pos hku]
        · rw [if_neg hku, if_neg hku, ih]

theorem getRecord_append_single_ne (tbl : Table) (k u : String)
    (v : RecordVal) (h : u ≠ k) :
    getRecord (tbl ++ [(k, v)]) u = getRecord tbl u := by
  induction tbl with
  | nil =>
      have h' : ¬ k = u := fun hh => h hh.symm
      rw [List.nil_append, getRecord_cons, if_neg h']
  | cons p rest ih =>
      obtain ⟨k', v'⟩ := p
      rw [List.cons_append, getRecord_cons, getRecord_cons]
      by_cases hu : k' = u
      · rw [if_pos hu, if_pos hu]
      · rw [if_neg hu, if_neg hu, ih]

theorem getRecord_of_not_containsKey (tbl : Table) (k : String)
    (h : containsKey tbl k = false) : getRecord tbl k = .list [] := by
  induction tbl with
  | nil => rfl
  | cons p rest ih =>
      obtain ⟨k', v'⟩ := p
      simp only [containsKey, List.any_cons, Bool.or_eq_false_iff] at h
      have hk : ¬ k' = k := by simpa using h.1
      rw [getRecord_cons, if_neg hk]
      exact ih (by simpa [containsKey] using h.2)

theorem getRecord_append_single_self (tbl : Table) (k : String)
    (v : RecordVal) (h : containsKey tbl k = false) :
    getRecord (tbl ++ [(k, v)]) k = v := by
  induction tbl with
  | nil =>
      rw [List.nil_append, getRecord_cons, if_pos rfl]
  | cons p rest ih =>
      obtain ⟨k', v'⟩ := p
      simp only [containsKey, List.any_cons, Bool.or_eq_false_iff] at h
      have hk : ¬ k' = k := by simpa using h.1
      rw [List.cons_append, getRecord_cons, if_neg hk]
      exact ih (by simpa [containsKey] using h.2)

theorem appendTable_ok (tbl : Table) (k : String) (entries l : List Turn)
    (h : getRecord tbl k = .list l) :
    ∃ tbl', appendTable tbl k entries = .ok tbl' ∧
      getRecord tbl' k = .list (l ++ entries) ∧
      ∀ u, u ≠ k → getRecord tbl' u = getRecord tbl u := by
  unfold appendTable
  cases hc : containsKey tbl k with
  | true =>
      rw [if_pos rfl, h]
      exact ⟨setEntry tbl k (.list (l ++ entries)), rfl,
        getRecord_setEntry_self tbl k _,
        fun u hu => getRecord_setEntry_ne tbl k u _ hu⟩
  | false =>
      have h0 : getRecord tbl k = RecordVal.list [] :=
        getRecord_of_not_containsKey tbl k hc
      have hl : l = [] := by
        rw [h0] at h
        injection h with h2
        exact h2.symm
      subst hl
      rw [if_neg (by simp),
        getRecord_append_single_self tbl k (RecordVal.list []) hc]
      refine ⟨setEntry (tbl ++ [(k, RecordVal.list [])]) k
        (.list ([] ++ entries)), rfl, ?_, ?_⟩
      · rw [getRecord_setEntry_self]
      · intro u hu
        rw [getRecord_setEntry_ne _ _ _ _ hu,
          getRecord_append_single_ne _ _ _ _ hu]

theorem appendTable_ne (tbl : Table) (k u : String) (entries : List Turn)
    (hu : u ≠ k) :
    ∀ tbl', appendTable tbl k entries = .ok tbl' →
      getRecord tbl' u = getRecord tbl u := by
  unfold appendTable
  cases hc : containsKey tbl k with
  | true =>
      rw [if_pos rfl]
      cases hg : getRecord tbl k with
      | list l =>
          intro tbl' h
          cases h
          exact getRecord_setEntry_ne tbl k u _ hu
      | nonList =>
          intro tbl' h
          exact Except.noConfusion h
  | false =>
      rw [if_neg (by simp),
        getRecord_append_single_self tbl k (RecordVal.list []) hc]
      intro tbl' h
      cases h
      rw [getRecord_setEntry_ne _ _ _ _ hu,
        getRecord_append_single_ne _ _ _ _ hu]

theorem getRecord_clearTable_ne (tbl : Table) (k u : String) (h : u ≠ k) :
    getRecord (clearTable tbl k) u = getRecord tbl u :=
  getRecord_setEntry_ne tbl k u (.list []) h

end JsonHistory

namespace Client

theorem connectLoop_agent_tools (l : List (MCPServerSpec × ConnOutcome))
    (st : ConnState) (acc : List String) :
    (connectLoop st acc l).2.agent = st.agent ∧
      (connectLoop st acc l).2.tools = st.tools ∧
      (connectLoop st acc l).2.released = st.released := by
  induction l generalizing st acc with
  | nil => exact ⟨rfl, rfl, rfl⟩
  | cons p rest ih =>
      obtain ⟨spec, out⟩ := p
      by_cases h1 : spec.transport = "stdio"
      · cases out with
        | toolsOk ts => simpa [connectLoop, h1] using ih _ _
        | connErr opened => simp [connectLoop, h1]
      · by_cases h2 : spec.transport = "http"
        · cases out with
          | toolsOk ts => simpa [connectLoop, h1, h2] using ih _ _
          | connErr opened => simp [connectLoop, h1, h2]
        · simp [connectLoop, h1, h2]

theorem connectLoop_unknown (pre : List (MCPServerSpec × ConnOutcome))
    (spec : MCPServerSpec) (out : ConnOutcome)
    (rest : List (MCPServerSpec × ConnOutcome)) (st : ConnState)
    (acc : List String)
    (hpre : ∀ p ∈ pre, (p.1.transport = "stdio" ∨ p.1.transport = "http") ∧
      ∃ ts, p.2 = ConnOutcome.toolsOk ts)
    (h1 : spec.transport ≠ "stdio") (h2 : spec.transport ≠ "http") :
    connectLoop st acc (pre ++ (spec, out) :: rest) =
      (.error (.valueError ("Unsupported transport: " ++ spec.transport)),
       { st with
          exitStack := st.exitStack ++ openedBy pre,
          sessions := st.sessions ++ sessionsOf pre }) := by
  induction pre generalizing st acc with
  | nil =>
      simp only [List.nil_append, openedBy, sessionsOf, List.append_nil]
      simp [connectLoop, h1, h2]
  | cons p pre ih =>
      obtain ⟨pspec, pout⟩ := p
      obtain ⟨htr, ts, hts⟩ := hpre (pspec, pout) (List.mem_cons_self _ _)
      subst hts
      have hpre' : ∀ q ∈ pre,
          (q.1.transport = "stdio" ∨ q.1.transport = "http") ∧
          ∃ us, q.2 = ConnOutcome.toolsOk us :=
        fun q hq => hpre q (List.mem_cons_of_mem _ hq)
      cases htr with
      | inl hs =>
          have hs' : pspec.transport = "stdio" := hs
          rw [List.cons_append]
          rw [show connectLoop st acc
              ((pspec, ConnOutcome.toolsOk ts) :: (pre ++ (spec, out) :: rest)) =
              connectLoop
                { st with
                    exitStack := st.exitStack ++ stdioResources pspec,
                    sessions := st.sessions ++ [pspec.name] }
                (acc ++ ts) (pre ++ (spec, out) :: rest) by
            simp [connectLoop, hs']]
          rw [ih _ _ hpre']
          simp [openedBy, sessionsOf, hs', List.append_assoc]
      | inr hh =>
          have hh' : pspec.transport = "http" := hh
          have hns : pspec.transport ≠ "stdio" := by
            rw [hh']
            decide
          rw [List.cons_append]
          rw [show connectLoop st acc
              ((pspec, ConnOutcome.toolsOk ts) :: (pre ++ (spec, out) :: rest)) =
              connectLoop st (acc ++ ts) (pre ++ (spec, out) :: rest) by
            simp [connectLoop, hns, hh']]
          rw [ih _ _ hpre']
          simp [openedBy, sessionsOf, hns]

end Client

namespace Extraction

theorem scanStep_tool_call (st : ScanState) (m : AgentMsg) :
    (scanStep st m).tool_call = (firstCallOf m).orElse (fun _ => st.tool_call) := by
  cases m with
  | ai c tcs meta =>
      cases tcs with
      | nil =>
          by_cases h : c ≠ "" <;> simp [scanStep, firstCallOf, h, Option.orElse]
      | cons tc rest =>
          by_cases h : c ≠ "" <;> simp [scanStep, firstCallOf, h, Option.orElse]
  | toolMsg c art => simp [scanStep, firstCallOf, Option.orElse]
  | otherMsg c => simp [scanStep, firstCallOf, Option.orElse]
  | tup r c => simp [scanStep, firstCallOf, Option.orElse]

theorem scanStep_tool_result (st : ScanState) (m : AgentMsg) :
    (scanStep st m).tool_result = (resultOf m).orElse (fun _ => st.tool_result) := by
  cases m with
  | ai c tcs meta =>
      cases tcs with
      | nil =>
          by_cases h : c ≠ "" <;> simp [scanStep, resultOf, h, Option.orElse]
      | cons tc rest =>
          by_cases h : c ≠ "" <;> simp [scanStep, resultOf, h, Option.orElse]
  | toolMsg c art => simp [scanStep, resultOf, Option.orElse]
  | otherMsg c => simp [scanStep, resultOf, Option.orElse]
  | tup r c => simp [scanStep, resultOf, Option.orElse]

theorem foldl_tool_call (msgs : List AgentMsg) (st : ScanState) :
    (msgs.foldl scanStep st).tool_call =
      ((msgs.reverse.findSome? firstCallOf).orElse (fun _ => st.tool_call)) := by
  induction msgs generalizing st with
  | nil => simp [Option.orElse]
  | cons m rest ih =>
      rw [List.foldl_cons, ih]
      rw [List.reverse_cons, List.findSome?_append]
      cases hr : rest.reverse.findSome? firstCallOf with
      | some v => simp [Option.orElse]
      | none =>
          simp only [Option.orElse, Option.none_orElse]
          rw [scanStep_tool_call]
          cases hf : firstCallOf m <;> simp [Option.orElse, List.findSome?, hf]

theorem foldl_tool_result (msgs : List AgentMsg) (st : ScanState) :
    (msgs.foldl scanStep st).tool_result =
      ((msgs.reverse.findSome? resultOf).orElse (fun _ => st.tool_result)) := by
  induction msgs generalizing st with
  | nil => simp [Option.orElse]
  | cons m rest ih =>
      rw [List.foldl_cons, ih]
      rw [List.reverse_cons, List.findSome?_append]
      cases hr : rest.reverse.findSome? resultOf with
      | some v => simp [Option.orElse]
      | none =>
          simp only [Option.orElse, Option.none_orElse]
          rw [scanStep_tool_result]
          cases hf : resultOf m <;> simp [Option.orElse, List.findSome?, hf]

end Extraction

open JsonHistory Client Extraction

/-- Claim C8, counterexample: `load` with the explicit limit `0` on a
thread holding one turn returns that turn (because `0` is falsy in
`data[-last_n:] if last_n else data`), not the empty sequence
`min 0 K = 0` demanded by the claim. -/
theorem load_zero_limit_counterexample :
    JsonHistory.load (.parsed (.obj [("t", .list [⟨"user", "hi", "ts1"⟩])]))
        "t" (some 0) = .ok (.list [⟨"user", "hi", "ts1"⟩]) ∧
      ([(⟨"user", "hi", "ts1"⟩ : Turn)] : List Turn) ≠ [] := by
  exact ⟨rfl, by simp⟩

/-- Claim C8 (amended): for a thread whose stored record is a list of
K turns, a provided limit n ≥ 1 makes `load` return exactly the most
recent min(n, K) turns in order (a suffix of the record of that
length); an absent limit or the limit 0 returns all K turns. -/
theorem load_limit_behaviour (fs : FileState) (tbl : Table) (tid : String)
    (record : List Turn) (n : Nat)
    (hload : load_all fs = .table tbl)
    (hrec : getRecord tbl tid = .list record) (hn : 1 ≤ n) :
    (JsonHistory.load fs tid (some n) =
        .ok (.list (record.drop (record.length - n))) ∧
      (record.drop (record.length - n)).length = min n record.length ∧
      record.drop (record.length - n) <:+ record) ∧
    JsonHistory.load fs tid none = .ok (.list record) ∧
    JsonHistory.load fs tid (some 0) = .ok (.list record) := by
  have hl : ∀ m : Option Nat, JsonHistory.load fs tid m =
      sliceLast (getRecord tbl tid) m := by
    intro m
    show (match load_all fs with
      | .nonDict => Except.error PyErr.attributeError
      | .table t => sliceLast (getRecord t tid) m) = _
    rw [hload]
  refine ⟨⟨?_, ?_, ?_⟩, ?_, ?_⟩
  · rw [hl (some n), hrec]
    cases n with
    | zero => exact absurd hn (by simp)
    | succ m => rfl
  · rw [List.length_drop]
    omega
  · exact List.drop_suffix _ _
  · rw [hl none, hrec]
    rfl
  · rw [hl (some 0), hrec]
    rfl

/-- Claim C8 witness: with a two-turn record and limit 1, `load`
returns the most recent turn. -/
theorem load_limit_behaviour_witness :
    JsonHistory.load
        (.parsed (.obj [("t",
          .list [⟨"user", "a", "ts1"⟩, ⟨"assistant", "b", "ts2"⟩])]))
        "t" (some 1) = .ok (.list [⟨"assistant", "b", "ts2"⟩]) :=
  (load_limit_behaviour
    (.parsed (.obj [("t",
      .list [⟨"user", "a", "ts1"⟩, ⟨"assistant", "b", "ts2"⟩])]))
    [("t", .list [⟨"user", "a", "ts1"⟩, ⟨"assistant", "b", "ts2"⟩])]
    "t" [⟨"user", "a", "ts1"⟩, ⟨"assistant", "b", "ts2"⟩] 1
    rfl rfl (by decide)).1.1

/-- Claim C9: for a thread whose stored record is a proper list,
`append(t, turns)` followed by `load(t)` returns the thread's previous
record extended with `turns` at the end, in insertion order; in
particular, for a thread_id unknown to the store it returns exactly
`turns`. -/
theorem append_then_load (fs : FileState) (tbl : Table) (tid : String)
    (entries old : List Turn)
    (hload : load_all fs = .table tbl)
    (hrec : getRecord tbl tid = .list old) :
    (∀ fs', JsonHistory.append fs tid entries = .ok fs' →
       JsonHistory.load fs' tid none = .ok (.list (old ++ entries))) ∧
    (containsKey tbl tid = false →
      ∀ fs', JsonHistory.append fs tid entries = .ok fs' →
        JsonHistory.load fs' tid none = .ok (.list entries)) := by
  obtain ⟨tbl', h1, h2, _⟩ := appendTable_ok tbl tid entries old hrec
  have happ : JsonHistory.append fs tid entries = .ok (save_all tbl') := by
    show (match load_all fs with
      | .nonDict => Except.error PyErr.typeError
      | .table t =>
          match appendTable t tid entries with
          | .error e => Except.error e
          | .ok t' => Except.ok (save_all t')) = _
    rw [hload]
    show (match appendTable tbl tid entries with
      | Except.error e => Except.error e
      | Except.ok t' => Except.ok (save_all t')) = _
    rw [h1]
  have hres : JsonHistory.load (save_all tbl') tid none =
      .ok (.list (old ++ entries)) := by
    show sliceLast (getRecord tbl' tid) none = _
    rw [h2]
    rfl
  constructor
  · intro fs' h
    rw [happ] at h
    cases h
    exact hres
  · intro hck fs' h
    have hold : old = [] := by
      have h0 := getRecord_of_not_containsKey tbl tid hck
      rw [hrec] at h0
      injection h0 with h0
    subst hold
    rw [happ] at h
    cases h
    simpa using hres

/-- Claim C9 witness: appending two turns for a fresh thread to an
absent store and loading them back returns exactly those turns. -/
theorem append_then_load_witness :
    JsonHistory.load
        (.parsed (.obj [("t1",
          .list [⟨"user", "hi", "ts"⟩, ⟨"assistant", "yo", "ts"⟩])]))
        "t1" none =
      .ok (.list [⟨"user", "hi", "ts"⟩, ⟨"assistant", "yo", "ts"⟩]) :=
  (append_then_load .absent [] "t1"
    [⟨"user", "hi", "ts"⟩, ⟨"assistant", "yo", "ts"⟩] [] rfl rfl).2 rfl _ rfl

/-- Claim C10: when the persisted table is parsable, `append(t, ...)`
and `clear(t)` leave the record of any other thread u unchanged: a
subsequent `load(u)` returns the same result as before. -/
theorem store_frame_other_threads (fs : FileState) (tbl : Table)
    (t u : String) (entries : List Turn) (n : Option Nat)
    (hload : load_all fs = .table tbl) (hne : u ≠ t) :
    (∀ fs', JsonHistory.append fs t entries = .ok fs' →
       JsonHistory.load fs' u n = JsonHistory.load fs u n) ∧
    (∀ fs', JsonHistory.clear fs t = .ok fs' →
       JsonHistory.load fs' u n = JsonHistory.load fs u n) := by
  have hl : JsonHistory.load fs u n = sliceLast (getRecord tbl u) n := by
    show (match load_all fs with
      | .nonDict => Except.error PyErr.attributeError
      | .table tb => sliceLast (getRecord tb u) n) = _
    rw [hload]
  have hA : JsonHistory.append fs t entries =
      (match appendTable tbl t entries with
        | .error e => Except.error e
        | .ok t' => Except.ok (save_all t')) := by
    show (match load_all fs with
      | .nonDict => Except.error PyErr.typeError
      | .table tb =>
          match appendTable tb t entries with
          | .error e => Except.error e
          | .ok t' => Except.ok (save_all t')) = _
    rw [hload]
  constructor
  · intro fs' h
    rw [hA] at h
    cases hat : appendTable tbl t entries with
    | error e =>
        rw [hat] at h
        exact Except.noConfusion h
    | ok tbl' =>
        rw [hat] at h
        cases h
        rw [hl]
        show sliceLast (getRecord tbl' u) n = _
        rw [appendTable_ne tbl t u entries hne tbl' hat]
  · intro fs' h
    have hclr : JsonHistory.clear fs t = .ok (save_all (clearTable tbl t)) := by
      show (match load_all fs with
        | .nonDict => Except.error PyErr.typeError
        | .table tb => Except.ok (save_all (clearTable tb t))) = _
      rw [hload]
    rw [hclr] at h
    cases h
    rw [hl]
    show sliceLast (getRecord (clearTable tbl t) u) n = _
    rw [getRecord_clearTable_ne tbl t u hne]

/-- Claim C10 witness: appending to thread "t" leaves thread "u"'s
stored record readable unchanged. -/
theorem store_frame_other_threads_witness :
    JsonHistory.load
        (.parsed (.obj [("u", .list [⟨"user", "x", "ts0"⟩]),
          ("t", .list [⟨"user", "y", "ts1"⟩])])) "u" none =
      JsonHistory.load
        (.parsed (.obj [("u", .list [⟨"user", "x", "ts0"⟩])])) "u" none :=
  (store_frame_other_threads
    (.parsed (.obj [("u", .list [⟨"user", "x", "ts0"⟩])]))
    [("u", .list [⟨"user", "x", "ts0"⟩])] "t" "u" [⟨"user", "y", "ts1"⟩]
    none rfl (by decide)).1 _ rfl

/-- Claim C1: when the agent call inside `invoke` raises, `invoke`
returns the fixed apology string on a timeout and the fixed
technical-issue string on any other exception, while the client state
(persisted store and in-memory history alike) is left completely
unchanged and no exception escapes, so the session stays usable —
for either setting of the debug flag, since the debug branch only
runs after a successful agent call. -/
theorem invoke_exception_fixed_reply (debug : Bool) (st : ClientState)
    (user_input now : String) :
    invoke debug st user_input .timeout now = (timeoutMsg, st) ∧
    invoke debug st user_input .failure now = (techMsg, st) :=
  ⟨rfl, rfl⟩

/-- Claim C2, counterexample: with `AGENT_DEBUG=true`, a successful
agent call whose response carries a tool result with an empty
"contacts" list makes the debug-branch `extract_agent_data` raise
(the IndexError of claim C7) inside the `try` block, so `invoke`
returns the technical-issue string instead of the extractable text
"done" and appends nothing — the state is returned unchanged even
though the agent call succeeded. -/
theorem invoke_debug_drops_turn_counterexample :
    invoke true ⟨"t1", [], .absent⟩ "hi"
        (.success (.messagesDict
          [.toolMsg "raw" (some ⟨some ⟨none, some [], none⟩⟩),
           .ai "done" [] none])) "ts" = (techMsg, ⟨"t1", [], .absent⟩) ∧
      extractText (.messagesDict
          [.toolMsg "raw" (some ⟨some ⟨none, some [], none⟩⟩),
           .ai "done" [] none]) = .ok "done" ∧
      techMsg ≠ "done" := by
  refine ⟨rfl, rfl, by decide⟩

/-- Claim C2 (amended): when the agent call succeeds, the debug branch
does not raise (which always holds when `AGENT_DEBUG` is off, its
default), the assistant text is extracted, and the thread's stored
record is a proper list, `invoke` returns the extracted text, the
store gains — in one `append` call — exactly the user turn followed
by the assistant turn for the session's thread_id, both stamped with
the same `now` timestamp (so the assistant timestamp is ≥ the user
timestamp), and the in-memory history is extended with the same two
turns; with `AGENT_DEBUG` enabled, a successful turn whose response
makes the debug extraction raise is instead answered with the fixed
technical-issue string and nothing is appended. -/
theorem invoke_success_appends_pair (debug : Bool) (st : ClientState)
    (user_input now msg : String) (r : AgentResult) (tbl : Table)
    (old : List Turn)
    (hdbg : debugExtract debug r = .ok ())
    (hex : extractText r = .ok msg)
    (hst : load_all st.store = .table tbl)
    (hrec : getRecord tbl st.thread_id = .list old) :
    (invoke debug st user_input (.success r) now).1 = msg ∧
    JsonHistory.load (invoke debug st user_input (.success r) now).2.store
        st.thread_id none =
      .ok (.list (old ++
        [⟨"user", user_input, now⟩, ⟨"assistant", msg, now⟩])) ∧
    (⟨"user", user_input, now⟩ : Turn).timestamp ≤
      (⟨"assistant", msg, now⟩ : Turn).timestamp ∧
    (invoke debug st user_input (.success r) now).2.history =
      st.history ++ [⟨"user", user_input⟩, ⟨"assistant", msg⟩] ∧
    (invoke debug st user_input (.success r) now).2.thread_id =
      st.thread_id := by
  obtain ⟨tbl', h1, h2, _⟩ := appendTable_ok tbl st.thread_id
    [⟨"user", user_input, now⟩, ⟨"assistant", msg, now⟩] old hrec
  have happ : JsonHistory.append st.store st.thread_id
      [⟨"user", user_input, now⟩, ⟨"assistant", msg, now⟩] =
      .ok (save_all tbl') := by
    show (match load_all st.store with
      | .nonDict => Except.error PyErr.typeError
      | .table t =>
          match appendTable t st.thread_id
              ([⟨"user", user_input, now⟩, ⟨"assistant", msg, now⟩] :
                List Turn) with
          | .error e => Except.error e
          | .ok t' => Except.ok (save_all t')) = _
    rw [hst]
    show (match appendTable tbl st.thread_id
        ([⟨"user", user_input, now⟩, ⟨"assistant", msg, now⟩] : List Turn) with
      | Except.error e => Except.error e
      | Except.ok t' => Except.ok (save_all t')) = _
    rw [h1]
  have hinv : invoke debug st user_input (.success r) now =
      (msg,
       { st with
          store := save_all tbl',
          history := st.history ++
            [⟨"user", user_input⟩, ⟨"assistant", msg⟩] }) := by
    show (match debugExtract debug r with
      | Except.error _ => (techMsg, st)
      | Except.ok _ =>
        match extractText r with
        | Except.error _ => (techMsg, st)
        | Except.ok message =>
          match JsonHistory.append st.store st.thread_id
              [⟨"user", user_input, now⟩, ⟨"assistant", message, now⟩] with
          | Except.error _ => (techMsg, st)
          | Except.ok store' =>
            (message,
             { st with
                store := store',
                history := st.history ++
                  ([⟨"user", user_input⟩, ⟨"assistant", message⟩] :
                    List HistEntry) })) = _
    rw [hdbg]
    show (match extractText r with
      | Except.error _ => (techMsg, st)
      | Except.ok message =>
        match JsonHistory.append st.store st.thread_id
            [⟨"user", user_input, now⟩, ⟨"assistant", message, now⟩] with
        | Except.error _ => (techMsg, st)
        | Except.ok store' =>
          (message,
           { st with
              store := store',
              history := st.history ++
                ([⟨"user", user_input⟩, ⟨"assistant", message⟩] :
                  List HistEntry) })) = _
    rw [hex]
    show (match JsonHistory.append st.store st.thread_id
        ([⟨"user", user_input, now⟩, ⟨"assistant", msg, now⟩] : List Turn) with
      | Except.error _ => (techMsg, st)
      | Except.ok store' =>
        (msg,
         { st with
            store := store',
            history := st.history ++
              ([⟨"user", user_input⟩, ⟨"assistant", msg⟩] :
                List HistEntry) })) = _
    rw [happ]
  have hres : JsonHistory.load (save_all tbl') st.thread_id none =
      .ok (.list (old ++
        [⟨"user", user_input, now⟩, ⟨"assistant", msg, now⟩])) := by
    show sliceLast (getRecord tbl' st.thread_id) none = _
    rw [h2]
    rfl
  refine ⟨by rw [hinv], ?_, le_refl _, by rw [hinv], by rw [hinv]⟩
  rw [hinv]
  exact hres

/-- Claim C2 witness: a concrete successful turn with debug off
against an absent store appends the user/assistant pair and returns
the agent text. -/
theorem invoke_success_appends_pair_witness :
    (invoke false ⟨"t1", [], .absent⟩ "hi"
        (.success (.messagesDict [.ai "hello" [] none]))
        "2026-01-01T00:00:00+00:00").1 = "hello" ∧
    JsonHistory.load
        (invoke false ⟨"t1", [], .absent⟩ "hi"
          (.success (.messagesDict [.ai "hello" [] none]))
          "2026-01-01T00:00:00+00:00").2.store "t1" none =
      .ok (.list [⟨"user", "hi", "2026-01-01T00:00:00+00:00"⟩,
        ⟨"assistant", "hello", "2026-01-01T00:00:00+00:00"⟩]) := by
  have h := invoke_success_appends_pair false ⟨"t1", [], .absent⟩ "hi"
    "2026-01-01T00:00:00+00:00" "hello" (.messagesDict [.ai "hello" [] none])
    [] [] rfl rfl rfl rfl
  exact ⟨h.1, h.2.1⟩

/-- Claim C6, counterexample: with two tool-call-carrying messages and
two tool-result messages in one response, the extractor reports the
later tool call ("other_tool") and the later tool result (wa_id "wa2",
message id "id2"), not the first ones the claim demands. -/
theorem extract_first_match_counterexample :
    extract_agent_data
        [.ai "" [⟨some "send_message", some "argsA"⟩] none,
         .ai "" [⟨some "other_tool", some "argsB"⟩] none,
         .toolMsg "r1" (some ⟨some ⟨some "whatsapp", some [⟨some "wa1"⟩],
           some [⟨some "id1"⟩]⟩⟩),
         .toolMsg "r2" (some ⟨some ⟨some "whatsapp", some [⟨some "wa2"⟩],
           some [⟨some "id2"⟩]⟩⟩)] =
      .ok ⟨none, none, some "other_tool", some "argsB", some "whatsapp",
        some "wa2", some "id2", none, none, none, true⟩ ∧
    (some "other_tool" : Option String) ≠ some "send_message" ∧
    (some "wa2" : Option String) ≠ some "wa1" ∧
    (some "id2" : Option String) ≠ some "id1" :=
  ⟨rfl, by decide, by decide, by decide⟩

/-- Claim C6 (amended): the extractor's message loop retains, for the
tool call, the first entry of the last message in arrival order whose
`tool_calls` is non-empty (later tool-call messages override earlier
ones), and, for the tool result, the artifact of the last tool-result
message in arrival order. -/
theorem extract_last_match_wins (msgs : List AgentMsg) :
    (scanMsgs msgs).tool_call = msgs.reverse.findSome? firstCallOf ∧
    (scanMsgs msgs).tool_result = msgs.reverse.findSome? resultOf := by
  constructor
  · rw [scanMsgs, foldl_tool_call]
    cases h : msgs.reverse.findSome? firstCallOf <;> simp [Option.orElse]
  · rw [scanMsgs, foldl_tool_result]
    cases h : msgs.reverse.findSome? resultOf <;> simp [Option.orElse]

/-- Claim C7: a tool result whose structured payload maps "contacts"
to an empty list makes `extract_agent_data` raise an `IndexError`
(from `structured.get("contacts", [{}])[0]`) instead of degrading to
`None` defaults; the same happens for an empty "messages" list. -/
theorem extract_empty_contacts_raises :
    extract_agent_data
        [.toolMsg "r" (some ⟨some ⟨none, some [], none⟩⟩)] =
        .error .indexError ∧
    extract_agent_data
        [.toolMsg "r" (some ⟨some ⟨none, none, some []⟩⟩)] =
        .error .indexError := by
  constructor
  · rfl
  · rfl

/-- Claim C3, counterexample: in a server sequence whose first spec is
a stdio server that connects successfully and whose second spec has
the unknown transport "websocket", `connect` does raise the
configuration `ValueError`, but only after the first server's
connection was fully established — two resources sit on the exit
stack, so "no subprocess or network session is established for any
spec in the sequence" is false. -/
theorem connect_unknown_transport_counterexample :
    (connect ⟨[], [], [], none, []⟩
        [(⟨"srv1", "stdio", some "a.py", none, none, none⟩,
          .toolsOk ["tool1"]),
         (⟨"bad", "websocket", none, none, none, none⟩, .toolsOk [])]).1 =
        .error (.valueError "Unsupported transport: websocket") ∧
      (connect ⟨[], [], [], none, []⟩
        [(⟨"srv1", "stdio", some "a.py", none, none, none⟩,
          .toolsOk ["tool1"]),
         (⟨"bad", "websocket", none, none, none, none⟩, .toolsOk [])]).2.exitStack =
        ["srv1:stdio_client", "srv1:ClientSession"] ∧
      (["srv1:stdio_client", "srv1:ClientSession"] : List String) ≠ [] := by
  exact ⟨rfl, rfl, by simp⟩

/-- Claim C3 (amended): when every spec before the first
unknown-transport spec connects successfully, `connect` fails with the
configuration `ValueError` naming that transport upon reaching it,
opening no connection for the offending spec or any later spec — the
exit stack holds exactly the resources of the earlier specs. -/
theorem connect_unknown_transport_config_error
    (pre : List (MCPServerSpec × ConnOutcome)) (spec : MCPServerSpec)
    (out : ConnOutcome) (rest : List (MCPServerSpec × ConnOutcome))
    (st : ConnState)
    (hpre : ∀ p ∈ pre, (p.1.transport = "stdio" ∨ p.1.transport = "http") ∧
      ∃ ts, p.2 = ConnOutcome.toolsOk ts)
    (h1 : spec.transport ≠ "stdio") (h2 : spec.transport ≠ "http") :
    (connect st (pre ++ (spec, out) :: rest)).1 =
        .error (.valueError ("Unsupported transport: " ++ spec.transport)) ∧
      (connect st (pre ++ (spec, out) :: rest)).2.exitStack =
        st.exitStack ++ openedBy pre := by
  have h := connectLoop_unknown pre spec out rest st [] hpre h1 h2
  unfold connect
  rw [h]
  exact ⟨rfl, rfl⟩

/-- Claim C3 witness: a concrete run with one successful stdio server
before the unknown-transport spec. -/
theorem connect_unknown_transport_config_error_witness :
    (connect ⟨[], [], [], none, []⟩
        [(⟨"srv1", "stdio", some "a.py", none, none, none⟩,
          .toolsOk ["tool1"]),
         (⟨"bad", "websocket", none, none, none, none⟩, .toolsOk [])]).1 =
        .error (.valueError ("Unsupported transport: " ++ "websocket")) ∧
      (connect ⟨[], [], [], none, []⟩
        [(⟨"srv1", "stdio", some "a.py", none, none, none⟩,
          .toolsOk ["tool1"]),
         (⟨"bad", "websocket", none, none, none, none⟩, .toolsOk [])]).2.exitStack =
        ([] : List String) ++
          openedBy [(⟨"srv1", "stdio", some "a.py", none, none, none⟩,
            .toolsOk ["tool1"])] :=
  connect_unknown_transport_config_error
    [(⟨"srv1", "stdio", some "a.py", none, none, none⟩, .toolsOk ["tool1"])]
    ⟨"bad", "websocket", none, none, none, none⟩ (.toolsOk [])
    [] ⟨[], [], [], none, []⟩
    (by
      intro p hp
      simp only [List.mem_singleton] at hp
      subst hp
      exact ⟨Or.inl rfl, ⟨["tool1"], rfl⟩⟩)
    (by decide) (by decide)

/-- Claim C4: whenever `connect` fails (a connection error at some
server, or zero tools discovered overall), the error is propagated,
the session stays unconnected (no agent is bound and the tool list is
untouched), and `close` releases every resource that is on the exit
stack — after `close` the stack is empty and each previously tracked
resource appears among the released ones; `close` is idempotent, so
calling it again is safe. -/
theorem connect_failure_cleanup (st : ConnState)
    (servers : List (MCPServerSpec × ConnOutcome)) (e : ConnErr)
    (hagent : st.agent = none)
    (herr : (connect st servers).1 = .error e) :
    (connect st servers).2.agent = none ∧
    (connect st servers).2.tools = st.tools ∧
    (close (connect st servers).2).exitStack = [] ∧
    (∀ r ∈ (connect st servers).2.exitStack,
       r ∈ (close (connect st servers).2).released) ∧
    close (close (connect st servers).2) = close (connect st servers).2 := by
  have hmem : ∀ s : ConnState, ∀ r ∈ s.exitStack, r ∈ (close s).released := by
    intro s r hr
    show r ∈ s.released ++ s.exitStack.reverse
    exact List.mem_append_right _ (List.mem_reverse.mpr hr)
  have hclose2 : ∀ s : ConnState, close (close s) = close s := by
    intro s
    simp [close]
  have hloop := connectLoop_agent_tools servers st []
  cases hc : connectLoop st [] servers with
  | mk res st' =>
      rw [hc] at hloop
      cases res with
      | error e' =>
          have hcon : connect st servers = (.error e', st') := by
            unfold connect
            rw [hc]
          rw [hcon]
          exact ⟨hloop.1.trans hagent, hloop.2.1, rfl, hmem st', hclose2 st'⟩
      | ok ts =>
          by_cases hempty : ts.isEmpty
          · have hcon : connect st servers =
                (.error (.runtimeError "No MCP tools discovered"), st') := by
              unfold connect
              rw [hc]
              simp [hempty]
            rw [hcon]
            exact ⟨hloop.1.trans hagent, hloop.2.1, rfl, hmem st', hclose2 st'⟩
          · exfalso
            have hcon : connect st servers =
                (.ok (), { st' with tools := ts, agent := some ts }) := by
              unfold connect
              rw [hc]
              simp [hempty]
            rw [hcon] at herr
            exact absurd herr (by simp)

/-- Claim C4 witness: a single stdio server that fails after opening
one resource — the error propagates and `close` empties the stack and
is idempotent. -/
theorem connect_failure_cleanup_witness :
    (connect ⟨[], [], [], none, []⟩
        [(⟨"srv1", "stdio", some "a.py", none, none, none⟩, .connErr 1)]).2.agent =
        none ∧
      (close (connect ⟨[], [], [], none, []⟩
        [(⟨"srv1", "stdio", some "a.py", none, none, none⟩,
          .connErr 1)]).2).exitStack = [] ∧
      close (close (connect ⟨[], [], [], none, []⟩
          [(⟨"srv1", "stdio", some "a.py", none, none, none⟩, .connErr 1)]).2) =
        close (connect ⟨[], [], [], none, []⟩
          [(⟨"srv1", "stdio", some "a.py", none, none, none⟩, .connErr 1)]).2 := by
  have h := connect_failure_cleanup ⟨[], [], [], none, []⟩
    [(⟨"srv1", "stdio", some "a.py", none, none, none⟩, .connErr 1)]
    .connectionError rfl rfl
  exact ⟨h.1, h.2.2.1, h.2.2.2.2⟩
